import Mathlib

/-!
Shallow embedding of the `go.expect.digital/cache` repository: the generic LRU
cache (`lru/lru.go`) and the intrusive doubly linked list backing it
(`internal/linked`).

Modelling conventions.

* Machine time: Go `time.Time` is embedded as `Nat`; the zero instant
  (`time.Time.IsZero`) is `0`, and `a.After(b)` is `b < a`.  Go
  `time.Duration` (the cache TTL, a signed 64-bit count of nanoseconds) is
  embedded as `Int`.  Each cache operation that reads the clock takes the
  current instant `now` as an explicit argument.
* Errors: Go `error` values are embedded as the inductive `GoErr`, with one
  constructor per `fmt.Errorf`/`errors.New` site in `lru.go`; a constructor
  made via the `%w` verb keeps its wrapped inner error as a field, and
  `errorsIs` mirrors `errors.Is` by unwrapping those fields.  `errText`
  renders the same text `fmt.Errorf` produces, given a rendering of keys
  (Go's `%v`).
* The recency list and the key index: `Cache.cache` (the linked list of
  `listValue` nodes, front first) and `Cache.lookup` (the map from key to
  node) are mutated in lockstep inside the same critical section at every
  site in the source (`PushFront`/map-insert, `Remove`/map-delete), so the
  embedding represents both by the single front-to-back entry list
  `Cache.cache`; the map lookup `c.lookup[key]` is embedded as keyed search
  `find?` in that list.  Sequential semantics is modelled (each exported
  operation runs whole inside the lock protocol of the source), so the
  re-check-after-lock-upgrade in `Get` always sees the key still present.
* Go iterates `c.lookup` in unspecified order in `evictExpired`; the
  embedding fixes front-to-back list order for that sweep.  Every claim
  proved below is insensitive to this order.
* User-supplied functions (the getter and the post-eviction callback) are
  embedded as pure functions into an outcome type whose `panics`
  constructor stands for the function panicking with the given description;
  the `recover()` boundaries in `execGetter` and `evict` are embedded
  exactly where the source has them, converting that outcome into an error.
-/

namespace lru

/-- Go `error` values arising in `lru.go`, one constructor per construction
site.  `sentinelNotFound` is the package-level `ErrNotFound`; `userMade`
stands for an arbitrary error built by user code; the `wrap…` constructors
are the `fmt.Errorf` calls using `%w` (they unwrap), and the `…Panicked`
constructors are the `fmt.Errorf` calls using `%v` on a recovered panic
value (they do not unwrap). -/
inductive GoErr (K : Type) where
  | sentinelNotFound : GoErr K
  | userMade (s : String) : GoErr K
  | getterPanicked (key : K) (r : String) : GoErr K
  | evictPanicked (key : K) (r : String) : GoErr K
  | wrapNotFound (key : K) (inner : GoErr K) : GoErr K
  | wrapGetterFor (key : K) (inner : GoErr K) : GoErr K
  | wrapSetFor (key : K) (inner : GoErr K) : GoErr K
  | wrapEvictFor (key : K) (inner : GoErr K) : GoErr K
  | wrapEvictExpired (inner : GoErr K) : GoErr K
deriving DecidableEq

/-- Embeds Go `errors.Is`: equality, or unwrapping through every `%w` wrap. -/
def errorsIs {K : Type} [DecidableEq K] (e target : GoErr K) : Bool :=
  e == target ||
    match e with
    | .wrapNotFound _ i => errorsIs i target
    | .wrapGetterFor _ i => errorsIs i target
    | .wrapSetFor _ i => errorsIs i target
    | .wrapEvictFor _ i => errorsIs i target
    | .wrapEvictExpired i => errorsIs i target
    | _ => false

/-- The error text, as `fmt.Errorf` renders it, given a rendering `ks` of
keys (Go's `%v` verb on the key type). -/
def errText {K : Type} (ks : K → String) : GoErr K → String
  | .sentinelNotFound => "not found"
  | .userMade s => s
  | .getterPanicked k r => "exec getter for key: " ++ ks k ++ ": " ++ r
  | .evictPanicked k r => "evict value for key: " ++ ks k ++ ": " ++ r
  | .wrapNotFound k i => "value not found for key: " ++ ks k ++ ": " ++ errText ks i
  | .wrapGetterFor k i => "get value by getter for key: " ++ ks k ++ ": " ++ errText ks i
  | .wrapSetFor k i => "set value for key: " ++ ks k ++ ": " ++ errText ks i
  | .wrapEvictFor k i => "evict value for key: " ++ ks k ++ ": " ++ errText ks i
  | .wrapEvictExpired i => "evict expired value: " ++ errText ks i

/-- Outcome of invoking a user-supplied post-eviction callback
(`OnEvict[V]`): normal return of `nil`, normal return of an error, or a
panic with the given description. -/
inductive CbOutcome (K : Type) where
  | ok : CbOutcome K
  | err (e : GoErr K) : CbOutcome K
  | panics (r : String) : CbOutcome K

/-- Outcome of invoking a user-supplied getter (`Getter[K, V]`). -/
inductive GetterOutcome (K V : Type) where
  | ok (v : V) : GetterOutcome K V
  | err (e : GoErr K) : GetterOutcome K V
  | panics (r : String) : GetterOutcome K V

/-- `listValue` from `lru.go`: the payload of each recency-list node. -/
structure listValue (K V : Type) where
  key : K
  val : V
  exp : Nat
deriving DecidableEq

/-- The cache (`Cache[K, V]` from `lru.go`).  `cache` is the recency list,
front first; the key index `lookup` is represented by the same list (see the
file header).  The `pending` single-flight registry carries no sequential
content and is omitted. -/
structure Cache (K V : Type) where
  n : Int
  ttl : Int
  getter : Option (K → GetterOutcome K V)
  onEvict : Option (V → CbOutcome K)
  cache : List (listValue K V)

variable {K V : Type} [DecidableEq K] [Inhabited V]

/-- `Cache.Size`: the configured maximum size. -/
def Cache.Size (c : Cache K V) : Int := c.n

/-- `Cache.Len`: the current number of entries. -/
def Cache.Len (c : Cache K V) : Nat := c.cache.length

/-- `Cache.evict`: removes the element from the list and the index, then
invokes the post-eviction callback if configured; a callback panic is
recovered and converted to an error, a callback error is wrapped with the
key. -/
def Cache.evict (c : Cache K V) (el : listValue K V) : Cache K V × Option (GoErr K) :=
  let c' := { c with cache := c.cache.eraseP (fun x => x.key == el.key) }
  match c.onEvict with
  | none => (c', none)
  | some f =>
    match f el.val with
    | .ok => (c', none)
    | .err e => (c', some (.wrapEvictFor el.key e))
    | .panics r => (c', some (.evictPanicked el.key r))

/-- The loop body of `Cache.evictExpired`: iterate over the snapshot of
entries, skip those whose expiration is after `now`, evict the rest,
aborting on the first eviction error. -/
def Cache.sweep (now : Nat) : Cache K V → List (listValue K V) → Cache K V × Option (GoErr K)
  | c, [] => (c, none)
  | c, el :: rest =>
    if now < el.exp then Cache.sweep now c rest
    else
      let r := c.evict el
      match r.2 with
      | some e => (r.1, some e)
      | none => Cache.sweep now r.1 rest

/-- `Cache.evictExpired`: a no-op when `ttl == 0`, otherwise sweeps all
entries not expiring after `now`. -/
def Cache.evictExpired (c : Cache K V) (now : Nat) : Cache K V × Option (GoErr K) :=
  if c.ttl = 0 then (c, none) else Cache.sweep now c c.cache

/-- `Cache.Set`: update in place and move to front if the key exists;
otherwise push a new entry at the front, and if over capacity evict expired
entries and then, if still over capacity, the least recently used entry. -/
def Cache.Set (c : Cache K V) (key : K) (value : V) (now : Nat) :
    Cache K V × Option (GoErr K) :=
  let exp : Nat := if 0 < c.ttl then now + c.ttl.toNat else 0
  if (c.cache.find? (fun x => x.key == key)).isSome then
    ({ c with cache := ⟨key, value, exp⟩ :: c.cache.eraseP (fun x => x.key == key) }, none)
  else
    let c1 : Cache K V := { c with cache := ⟨key, value, exp⟩ :: c.cache }
    if (c1.cache.length : Int) ≤ c1.n then (c1, none)
    else
      let r := c1.evictExpired now
      match r.2 with
      | some e => (r.1, some e)
      | none =>
        if ((r.1).cache.length : Int) ≤ (r.1).n then (r.1, none)
        else
          match (r.1).cache.getLast? with
          | some back => (r.1).evict back
          | none => (r.1, none)

/-- `Cache.populateByGetter`: with no getter, fail wrapping `ErrNotFound`;
otherwise run the getter (its panic recovered in `execGetter` and converted
to an error, its error wrapped once in `execGetter` and once more here),
then `Set` the value and return it. -/
def Cache.populateByGetter (c : Cache K V) (key : K) (now : Nat) :
    Cache K V × V × Option (GoErr K) :=
  match c.getter with
  | none => (c, default, some (.wrapNotFound key .sentinelNotFound))
  | some g =>
    match g key with
    | .panics r => (c, default, some (.wrapGetterFor key (.getterPanicked key r)))
    | .err e => (c, default, some (.wrapGetterFor key (.wrapGetterFor key e)))
    | .ok v =>
      let r := c.Set key v now
      match r.2 with
      | some e => (r.1, default, some (.wrapSetFor key e))
      | none => (r.1, v, none)

/-- `Cache.Get`: present and unexpired moves the entry to the front and
returns it; present and expired evicts it, returning a wrapped error if the
eviction reports one and otherwise falling through to the getter path;
absent goes to the getter path. -/
def Cache.Get (c : Cache K V) (key : K) (now : Nat) : Cache K V × V × Option (GoErr K) :=
  match c.cache.find? (fun x => x.key == key) with
  | some el =>
    if el.exp = 0 ∨ now < el.exp then
      ({ c with cache := el :: c.cache.eraseP (fun x => x.key == key) }, el.val, none)
    else
      let r := c.evict el
      match r.2 with
      | some e => (r.1, default, some (.wrapEvictExpired e))
      | none => (r.1).populateByGetter key now
  | none => c.populateByGetter key now

/-- The configuration options accepted by `New` (`WithSize`, `WithTTL`,
`WithGetter`, `WithOnEvict`). -/
inductive COpt (K V : Type) where
  | withSize (n : Int) : COpt K V
  | withTTL (ttl : Int) : COpt K V
  | withGetter (g : K → GetterOutcome K V) : COpt K V
  | withOnEvict (f : V → CbOutcome K) : COpt K V

/-- Application of one option to the cache under construction. -/
def applyOpt (c : Cache K V) : COpt K V → Cache K V
  | .withSize n => { c with n := n }
  | .withTTL t => { c with ttl := t }
  | .withGetter g => { c with getter := some g }
  | .withOnEvict f => { c with onEvict := some f }

/-- `New`: apply the options in order to the zero cache, then default the
size to 1024 when it is non-positive. -/
def New (opts : List (COpt K V)) : Cache K V :=
  let c := opts.foldl applyOpt { n := 0, ttl := 0, getter := none, onEvict := none, cache := [] }
  if c.n ≤ 0 then { c with n := 1024 } else c

/-- Runs a sequence of `Set` calls, each with its key, value and clock
instant, discarding returned errors (as a caller that keeps calling `Set`
does). -/
def runSets (c : Cache K V) : List (K × V × Nat) → Cache K V
  | [] => c
  | (k, v, now) :: rest => runSets (c.Set k v now).1 rest

/-- The keys currently stored, front to back. -/
def Cache.keys (c : Cache K V) : List K := c.cache.map (·.key)

/-- No two stored entries share a key.  This holds in every reachable cache
state (the source only inserts a key after the index lookup misses). -/
def keysNodup (c : Cache K V) : Prop := c.keys.Nodup

/-- The invariant `Set` maintains: positive configured size, entry count at
most the configured size, and pairwise distinct keys. -/
def SetInv (c : Cache K V) : Prop :=
  1 ≤ c.n ∧ (c.Len : Int) ≤ c.n ∧ keysNodup c

/-- The value most recently `Set` for `k` in the call sequence `ps`. -/
def lastVal (ps : List (K × V)) (k : K) : Option V :=
  (ps.reverse.find? (fun q => q.1 == k)).map Prod.snd

/-- The absolute expiration `Set` computes: `now + ttl` when `ttl > 0`, the
zero instant otherwise. -/
def expOf (ttl : Int) (now : Nat) : Nat :=
  if 0 < ttl then now + ttl.toNat else 0

/-- The cache state that a within-capacity sequence of `Set` calls `ps`
(all at instant `now`, on a cache configured like `c₀`) produces: one entry
per distinct key holding the last value set for it, count equal to the
number of distinct keys. -/
def Models (now : Nat) (c₀ : Cache K V) (ps : List (K × V)) (c : Cache K V) : Prop :=
  c.n = c₀.n ∧ c.ttl = c₀.ttl ∧ c.getter = c₀.getter ∧ c.onEvict = c₀.onEvict ∧
  keysNodup c ∧
  c.Len = (ps.map Prod.fst).toFinset.card ∧
  ∀ k : K, c.cache.find? (fun x => x.key == k) =
    (lastVal ps k).map (fun v => ⟨k, v, expOf c₀.ttl now⟩)

/-- `s` occurs as a contiguous substring of `t`. -/
def substrOf (s t : String) : Prop := s.data <:+: t.data

/- Concrete instances used by witnesses and counterexamples. -/

/-- Claim C3 scenario: `New(WithSize(2))`, no TTL, no getter. -/
def lruC3a : Cache Nat String := New [COpt.withSize 2]

/-- Claim C3 scenario after `Set(1, "one")`. -/
def lruC3b : Cache Nat String := (lruC3a.Set 1 "one" 0).1

/-- Claim C3 scenario after `Set(2, "two")`. -/
def lruC3c : Cache Nat String := (lruC3b.Set 2 "two" 0).1

/-- Claim C3 scenario: the `Get(1)` call refreshing key 1. -/
def lruC3d : Cache Nat String × String × Option (GoErr Nat) := lruC3c.Get 1 0

/-- Claim C3 scenario after `Set(3, "three")`. -/
def lruC3e : Cache Nat String := (lruC3d.1.Set 3 "three" 0).1

/-- Claim C2 counterexample: a cache with one expired entry for key 1, a
getter that would return `"fresh"`, and a post-eviction callback that
fails. -/
def lruC2cex : Cache Nat String :=
  { n := 10, ttl := 5, getter := some fun _ => .ok "fresh",
    onEvict := some fun _ => .err (.userMade "oops"), cache := [⟨1, "one", 5⟩] }

/-- Claim C2 witness: one expired entry, no getter, failing callback. -/
def lruC2w : Cache Nat String :=
  { n := 4, ttl := 5, getter := none,
    onEvict := some fun _ => .err (.userMade "oops"), cache := [⟨1, "one", 5⟩] }

/-- Claim C5 witness: two entries and a failing post-eviction callback. -/
def lruC5w : Cache Nat String :=
  { n := 4, ttl := 0, getter := none,
    onEvict := some fun _ => .err (.userMade "cbfail"),
    cache := [⟨1, "x", 0⟩, ⟨2, "y", 0⟩] }

/-- Claim C6 witness: empty cache whose getter panics. -/
def lruC6g : Cache Nat String :=
  { n := 4, ttl := 0, getter := some fun _ => .panics "boom", onEvict := none,
    cache := [] }

/-- Claim C6 witness: one expired entry whose eviction callback panics. -/
def lruC6e : Cache Nat String :=
  { n := 4, ttl := 1, getter := none, onEvict := some fun _ => .panics "pow",
    cache := [⟨7, "v", 3⟩] }

/-- Claim C6 witness: full size-1 cache whose eviction callback panics. -/
def lruC6s : Cache Nat String :=
  { n := 1, ttl := 0, getter := none, onEvict := some fun _ => .panics "zap",
    cache := [⟨1, "old", 0⟩] }

/-- Claim C7 counterexample/witness: one expired entry, no getter, no
callback. -/
def lruC7cex : Cache Nat String :=
  { n := 2, ttl := 5, getter := none, onEvict := none, cache := [⟨1, "one", 5⟩] }

/-- Claim C8 witness: `New(WithSize(2), WithTTL(-1))`. -/
def lruC8a : Cache Nat String := New [COpt.withSize 2, COpt.withTTL (-1)]

/-- Claim C8 witness after `Set(1, "a")`. -/
def lruC8b : Cache Nat String := (lruC8a.Set 1 "a" 5).1

/-- Claim C8 witness after `Set(2, "b")`. -/
def lruC8c : Cache Nat String := (lruC8b.Set 2 "b" 6).1

/-- Claim C4 witness: the in-capacity sequence
`Set(1,"a")`, `Set(2,"b")`, `Set(1,"c")` on `New(WithSize(2))`. -/
def lruC4w : Cache Nat String :=
  runSets (New [COpt.withSize 2]) [(1, "a", 0), (2, "b", 0), (1, "c", 0)]

/-- Claim C4 witness for the update-in-place part: key 1 present. -/
def lruC4b : Cache Nat String :=
  { n := 2, ttl := 0, getter := none, onEvict := none, cache := [⟨1, "x", 0⟩] }

end lru

namespace linked

/-- A node of the intrusive doubly linked list (`Element` in
`internal/linked`): its payload and its two links.  The Go pointer to a
node is embedded as the node's index in the list's node heap; index 0 is
the root sentinel (`l.root`), so a link value 0 plays the role of a pointer
to the root. -/
structure Element (V : Type) where
  value : V
  next : Nat
  prev : Nat
deriving DecidableEq, Inhabited

/-- The list (`List` in `internal/linked`, named `LList` here because `List`
is taken by Lean's list): the node heap, with the root sentinel at index 0,
and the tracked length `n`.  Only the relinking operations exercised by the
spec's move claims are embedded. -/
structure LList (V : Type) where
  nodes : List (Element V)
  n : Nat
deriving DecidableEq

variable {V : Type} [Inhabited V]

/-- Dereference the node at index `i` (Go pointer dereference). -/
def rd (l : LList V) (i : Nat) : Element V := l.nodes.getD i default

/-- Assign the `next` field of the node at index `i` (Go `node.next = x`). -/
def wrNext (l : LList V) (i x : Nat) : LList V :=
  { l with nodes := l.nodes.set i { rd l i with next := x } }

/-- Assign the `prev` field of the node at index `i` (Go `node.prev = x`). -/
def wrPrev (l : LList V) (i x : Nat) : LList V :=
  { l with nodes := l.nodes.set i { rd l i with prev := x } }

/-- `List.move` from the source: a no-op when `element == after` or
`element.prev == after`, otherwise the six pointer assignments in source
order, each reading the heap as left by the previous one. -/
def move (l : LList V) (e af : Nat) : LList V :=
  if e = af ∨ (rd l e).prev = af then l
  else
    let l1 := wrNext l (rd l e).prev (rd l e).next
    let l2 := wrPrev l1 (rd l1 e).next (rd l1 e).prev
    let l3 := wrPrev l2 e af
    let l4 := wrNext l3 e (rd l3 af).next
    let l5 := wrNext l4 (rd l4 e).prev e
    wrPrev l5 (rd l5 e).next e

/-- `List.MoveToFront`: move after the root sentinel. -/
def MoveToFront (l : LList V) (e : Nat) : LList V := move l e 0

/-- `List.MoveToBack`: move after the root sentinel's `prev`. -/
def MoveToBack (l : LList V) (e : Nat) : LList V := move l e (rd l 0).prev

/-- `List.Len`: the tracked length. -/
def Len (l : LList V) : Nat := l.n

/-- Structural well-formedness of the circular list: the heap holds the
root, every link is a valid index, and the `next`/`prev` fields of
neighbouring nodes pair up.  Every list built by the source's insert
operations satisfies this. -/
def WF (l : LList V) : Prop :=
  l.nodes ≠ [] ∧
  ∀ i, i < l.nodes.length →
    (rd l i).next < l.nodes.length ∧ (rd l i).prev < l.nodes.length ∧
    (rd l (rd l i).next).prev = i ∧ (rd l (rd l i).prev).next = i

/-- Claim C10 witness: root, then front node `"a"` (index 1), back node
`"b"` (index 2). -/
def wlist : LList String := ⟨[⟨"", 1, 2⟩, ⟨"a", 2, 0⟩, ⟨"b", 0, 1⟩], 2⟩

end linked

/-! ## Theorems -/

namespace lru

variable {K V : Type} [DecidableEq K] [Inhabited V]

theorem evict_fst (c : Cache K V) (el : listValue K V) :
    (c.evict el).1 = { c with cache := c.cache.eraseP (fun x => x.key == el.key) } := by
  rcases hc : c.onEvict with _ | f
  · simp [Cache.evict, hc]
  · rcases hf : f el.val <;> simp [Cache.evict, hc, hf]

/-- Claim C3: with capacity 2, no TTL and no loader, the sequence
`Set(1,"one")`, `Set(2,"two")`, `Get(1)`, `Set(3,"three")` evicts key 2 and
not key 1; afterwards `Get(1)` and `Get(3)` return their set values with no
error and `Get(2)` fails with an error wrapping `ErrNotFound`. -/
theorem claim_C3 :
    (lruC3d.2.1 = "one" ∧ lruC3d.2.2 = none) ∧
    lruC3e.keys = [3, 1] ∧
    ((lruC3e.Get 1 0).2.1 = "one" ∧ (lruC3e.Get 1 0).2.2 = none) ∧
    ((lruC3e.Get 3 0).2.1 = "three" ∧ (lruC3e.Get 3 0).2.2 = none) ∧
    (lruC3e.Get 2 0).2.2 = some (.wrapNotFound 2 .sentinelNotFound) ∧
    errorsIs (GoErr.wrapNotFound 2 GoErr.sentinelNotFound) GoErr.sentinelNotFound = true := by
  decide

/-- Claim C2 counterexample: on `lruC2cex`, whose entry for key 1 is
expired, whose eviction callback fails and whose getter would return
`"fresh"` with no error, `Get(1)` does not continue to the miss path: it
returns the wrapped eviction error and the zero value, never invoking the
getter — refuting "continues to the miss path … regardless of the callback
outcome". -/
theorem claim_C2_counterexample :
    (lruC2cex.Get 1 10).2 =
      ("", some (.wrapEvictExpired (.wrapEvictFor 1 (.userMade "oops")))) ∧
    (lruC2cex.Get 1 10).1.cache = [] ∧
    (lruC2cex.Get 1 10).2.1 ≠ "fresh" ∧ (lruC2cex.Get 1 10).2.2 ≠ none := by
  decide

/-- Claim C7 counterexample: on `lruC7cex` (no getter, one expired entry
for key 1), `Get(1)` does return an error wrapping `ErrNotFound`, but it
does not leave the cache's entries and `Len()` unchanged: the expired entry
is evicted, so `Len()` drops from 1 to 0 — refuting the "leaves the cache's
entries and Len() unchanged" part for the just-evicted case. -/
theorem claim_C7_counterexample :
    (lruC7cex.Get 1 10).2.2 = some (.wrapNotFound 1 .sentinelNotFound) ∧
    errorsIs (GoErr.wrapNotFound 1 GoErr.sentinelNotFound) GoErr.sentinelNotFound = true ∧
    lruC7cex.Len = 1 ∧ (lruC7cex.Get 1 10).1.Len = 0 := by
  decide

end lru

namespace lru

variable {K V : Type} [DecidableEq K] [Inhabited V]

theorem evict_snd_none (c : Cache K V) (el : listValue K V) (h : c.onEvict = none) :
    (c.evict el).2 = none := by
  simp [Cache.evict, h]

theorem evict_config (c : Cache K V) (el : listValue K V) :
    ((c.evict el).1).n = c.n ∧ ((c.evict el).1).ttl = c.ttl ∧
    ((c.evict el).1).getter = c.getter ∧ ((c.evict el).1).onEvict = c.onEvict := by
  rw [evict_fst]
  exact ⟨rfl, rfl, rfl, rfl⟩

theorem sweep_config (now : Nat) (es : List (listValue K V)) :
    ∀ c : Cache K V,
      ((Cache.sweep now c es).1).n = c.n ∧ ((Cache.sweep now c es).1).ttl = c.ttl ∧
      ((Cache.sweep now c es).1).getter = c.getter ∧
      ((Cache.sweep now c es).1).onEvict = c.onEvict := by
  induction es with
  | nil => intro c; simp [Cache.sweep]
  | cons el rest ih =>
    intro c
    simp only [Cache.sweep]
    by_cases h : now < el.exp
    · simpa [h] using ih c
    · rw [if_neg h]
      rcases hr : (c.evict el).2 with _ | e
      · simp only [hr]
        have h1 := ih (c.evict el).1
        have h2 := evict_config c el
        exact ⟨h1.1.trans h2.1, h1.2.1.trans h2.2.1, h1.2.2.1.trans h2.2.2.1,
          h1.2.2.2.trans h2.2.2.2⟩
      · simp only [hr]
        exact evict_config c el

theorem sweep_sublist (now : Nat) (es : List (listValue K V)) :
    ∀ c : Cache K V, ((Cache.sweep now c es).1).cache.Sublist c.cache := by
  induction es with
  | nil => intro c; simp [Cache.sweep]
  | cons el rest ih =>
    intro c
    simp only [Cache.sweep]
    by_cases h : now < el.exp
    · simpa [h] using ih c
    · rw [if_neg h]
      rcases hr : (c.evict el).2 with _ | e
      · simp only [hr]
        refine (ih _).trans ?_
        rw [evict_fst]
        exact List.eraseP_sublist _
      · simp only [hr]
        rw [evict_fst]
        exact List.eraseP_sublist _

theorem sweep_err_shrinks (now : Nat) (es : List (listValue K V)) :
    ∀ c : Cache K V,
      (∀ e ∈ es, ∃ x ∈ c.cache, x.key = e.key) →
      (es.map (·.key)).Nodup →
      ((Cache.sweep now c es).2).isSome →
      ((Cache.sweep now c es).1).cache.length < c.cache.length := by
  induction es with
  | nil => intro c _ _ hs; simp [Cache.sweep] at hs
  | cons el rest ih =>
    intro c hmem hnd hs
    simp only [List.map_cons, List.nodup_cons] at hnd
    simp only [Cache.sweep] at hs ⊢
    by_cases h : now < el.exp
    · rw [if_pos h] at hs ⊢
      exact ih c (fun e he => hmem e (List.mem_cons_of_mem _ he)) hnd.2 hs
    · rw [if_neg h] at hs ⊢
      obtain ⟨x, hx, hxk⟩ := hmem el (List.mem_cons_self _ _)
      have hlen : ((c.evict el).1).cache.length = c.cache.length - 1 := by
        rw [evict_fst]
        exact List.length_eraseP_of_mem hx (by simp [hxk])
      have hpos : 0 < c.cache.length := List.length_pos_of_mem hx
      rcases hr : (c.evict el).2 with _ | e
      · simp only [hr] at hs ⊢
        have hm' : ∀ e ∈ rest, ∃ y ∈ ((c.evict el).1).cache, y.key = e.key := by
          intro e he
          obtain ⟨y, hy, hyk⟩ := hmem e (List.mem_cons_of_mem _ he)
          refine ⟨y, ?_, hyk⟩
          rw [evict_fst]
          have hne : e.key ≠ el.key := by
            intro hcontra
            exact hnd.1 (List.mem_map.mpr ⟨e, he, hcontra⟩)
          exact (List.mem_eraseP_of_neg (by simp [hyk, hne])).mpr hy
        have hlt := ih _ hm' hnd.2 hs
        omega
      · simp only [hr] at hs ⊢
        omega

theorem evictExpired_config (c : Cache K V) (now : Nat) :
    ((c.evictExpired now).1).n = c.n ∧ ((c.evictExpired now).1).ttl = c.ttl ∧
    ((c.evictExpired now).1).getter = c.getter ∧
    ((c.evictExpired now).1).onEvict = c.onEvict := by
  unfold Cache.evictExpired
  by_cases h : c.ttl = 0
  · simp [h]
  · rw [if_neg h]
    exact sweep_config now c.cache c

theorem evictExpired_sublist (c : Cache K V) (now : Nat) :
    ((c.evictExpired now).1).cache.Sublist c.cache := by
  unfold Cache.evictExpired
  by_cases h : c.ttl = 0
  · simp [h]
  · rw [if_neg h]
    exact sweep_sublist now c.cache c

theorem keys_eraseP_ne (k : K) :
    ∀ l : List (listValue K V), (l.map (·.key)).Nodup →
      ∀ x ∈ l.eraseP (fun e => e.key == k), x.key ≠ k := by
  intro l
  induction l with
  | nil => intro _ x hx; simp at hx
  | cons h t ih =>
    intro hnd x hx
    simp only [List.map_cons, List.nodup_cons] at hnd
    by_cases hk : h.key = k
    · rw [List.eraseP_cons_of_pos (by simp [hk])] at hx
      intro hxk
      exact hnd.1 (hk ▸ hxk ▸ List.mem_map.mpr ⟨x, hx, rfl⟩)
    · rw [List.eraseP_cons_of_neg (by simp [hk])] at hx
      rcases List.mem_cons.mp hx with hx' | hx'
      · exact fun hh => hk (hx' ▸ hh)
      · exact ih hnd.2 x hx'

theorem key_not_mem_of_find?_none {c : Cache K V} {k : K}
    (h : c.cache.find? (fun x => x.key == k) = none) : k ∉ c.keys := by
  rw [List.find?_eq_none] at h
  intro hk
  obtain ⟨x, hx, hxk⟩ := List.mem_map.mp hk
  exact h x hx (by simp [hxk])

end lru

namespace lru

variable {K V : Type} [DecidableEq K] [Inhabited V]

theorem Set_SetInv (c : Cache K V) (k : K) (v : V) (now : Nat) (h : SetInv c) :
    SetInv ((c.Set k v now).1) := by
  obtain ⟨hn, hlen, hnd⟩ := h
  simp only [Cache.Set]
  by_cases hf : (c.cache.find? (fun x => x.key == k)).isSome
  · rw [if_pos hf]
    obtain ⟨el, hel⟩ := Option.isSome_iff_exists.mp hf
    have hmem : el ∈ c.cache := List.mem_of_find?_eq_some hel
    have hpel := List.find?_some hel
    have hkey : el.key = k := by simpa using hpel
    refine ⟨hn, ?_, ?_⟩
    · have he : (c.cache.eraseP (fun x => x.key == k)).length = c.cache.length - 1 :=
        List.length_eraseP_of_mem hmem hpel
      have hpos : 0 < c.cache.length := List.length_pos_of_mem hmem
      simp only [Cache.Len, List.length_cons, he]
      have : c.cache.length - 1 + 1 = c.cache.length := by omega
      rw [this]
      exact hlen
    · have hsub : (c.cache.eraseP (fun x => x.key == k)).Sublist c.cache :=
        List.eraseP_sublist _
      have hnd' : ((c.cache.eraseP (fun x => x.key == k)).map (·.key)).Nodup :=
        (hsub.map _).nodup hnd
      have hout := keys_eraseP_ne (V := V) k c.cache hnd
      simp only [keysNodup, Cache.keys, List.map_cons, List.nodup_cons]
      refine ⟨?_, hnd'⟩
      intro hk
      obtain ⟨x, hx, hxk⟩ := List.mem_map.mp hk
      exact hout x hx hxk
  · rw [if_neg hf]
    have hfnone : c.cache.find? (fun x => x.key == k) = none := by
      rcases hq : c.cache.find? (fun x => x.key == k) with _ | q
      · exact hq
      · exact absurd (by rw [hq]; rfl) hf
    have hfresh : k ∉ c.keys := key_not_mem_of_find?_none hfnone
    have hnd1 : keysNodup (K := K) (V := V)
        { c with cache := ⟨k, v, if 0 < c.ttl then now + c.ttl.toNat else 0⟩ :: c.cache } := by
      simp only [keysNodup, Cache.keys, List.map_cons, List.nodup_cons]
      exact ⟨hfresh, hnd⟩
    by_cases hcap : ((⟨k, v, if 0 < c.ttl then now + c.ttl.toNat else 0⟩ :: c.cache :
        List (listValue K V)).length : Int) ≤ c.n
    · rw [if_pos hcap]
      exact ⟨hn, hcap, hnd1⟩
    · rw [if_neg hcap]
      set c1 : Cache K V :=
        { c with cache := ⟨k, v, if 0 < c.ttl then now + c.ttl.toNat else 0⟩ :: c.cache }
        with hc1
      have hsub1 : ((c1.evictExpired now).1).cache.Sublist c1.cache :=
        evictExpired_sublist c1 now
      have hcfg1 := evictExpired_config c1 now
      have hshrink : ((c1.evictExpired now).2).isSome →
          ((c1.evictExpired now).1).cache.length < c1.cache.length := by
        intro hs
        unfold Cache.evictExpired at hs ⊢
        by_cases httl : c1.ttl = 0
        · rw [if_pos httl] at hs
          simp at hs
        · rw [if_neg httl] at hs ⊢
          refine sweep_err_shrinks now c1.cache c1 (fun e he => ⟨e, he, rfl⟩) ?_ hs
          exact hnd1
      rcases hr : (c1.evictExpired now).2 with _ | e
      · simp only [hr]
        have hnd2 : keysNodup ((c1.evictExpired now).1) := (hsub1.map _).nodup hnd1
        by_cases hcap2 : ((((c1.evictExpired now).1).cache.length : Int) ≤
            ((c1.evictExpired now).1).n)
        · rw [if_pos hcap2]
          exact ⟨hcfg1.1 ▸ hn, hcap2, hnd2⟩
        · rw [if_neg hcap2]
          have hne : ((c1.evictExpired now).1).cache ≠ [] := by
            intro hnil
            rw [hnil] at hcap2
            simp only [List.length_nil, Nat.cast_zero, hcfg1.1] at hcap2
            omega
          rcases hb : ((c1.evictExpired now).1).cache.getLast? with _ | back
          · rw [List.getLast?_eq_none_iff] at hb
            exact absurd hb hne
          · simp only [hb]
            obtain ⟨l', hl'⟩ := List.getLast?_eq_some_iff.mp hb
            have hbmem : back ∈ ((c1.evictExpired now).1).cache := by
              rw [hl']; simp
            have hlenB : (((c1.evictExpired now).1.evict back).1).cache.length =
                ((c1.evictExpired now).1).cache.length - 1 := by
              rw [evict_fst]
              exact List.length_eraseP_of_mem hbmem (by simp)
            refine ⟨?_, ?_, ?_⟩
            · have := (evict_config ((c1.evictExpired now).1) back).1
              rw [this, hcfg1.1]
              exact hn
            · have hcfgE := (evict_config ((c1.evictExpired now).1) back).1
              simp only [Cache.Len, hlenB, hcfgE, hcfg1.1]
              have hEle : ((c1.evictExpired now).1).cache.length ≤ c1.cache.length :=
                hsub1.length_le
              have hc1len : c1.cache.length = c.cache.length + 1 := by
                rw [hc1]; simp
              have hclen : (c.cache.length : Int) ≤ c.n := hlen
              have hpos : 0 < ((c1.evictExpired now).1).cache.length :=
                List.length_pos_of_mem hbmem
              omega
            · have hsubE : (((c1.evictExpired now).1.evict back).1).cache.Sublist
                  ((c1.evictExpired now).1).cache := by
                rw [evict_fst]
                exact List.eraseP_sublist _
              exact (hsubE.map _).nodup hnd2
      · simp only [hr]
        have hlt := hshrink (by rw [hr]; rfl)
        refine ⟨hcfg1.1 ▸ hn, ?_, (hsub1.map _).nodup hnd1⟩
        simp only [Cache.Len, hcfg1.1]
        have hc1len : c1.cache.length = c.cache.length + 1 := by
          rw [hc1]; simp
        have hclen : (c.cache.length : Int) ≤ c.n := hlen
        omega

theorem runSets_SetInv (calls : List (K × V × Nat)) :
    ∀ c : Cache K V, SetInv c → SetInv (runSets c calls) := by
  induction calls with
  | nil => intro c h; exact h
  | cons q rest ih =>
    intro c h
    exact ih _ (Set_SetInv c q.1 q.2.1 q.2.2 h)

theorem foldl_applyOpt_cache (opts : List (COpt K V)) :
    ∀ c₀ : Cache K V, (opts.foldl applyOpt c₀).cache = c₀.cache := by
  induction opts with
  | nil => intro c₀; rfl
  | cons o rest ih =>
    intro c₀
    rcases o <;> simpa [applyOpt] using ih _

theorem New_SetInv (opts : List (COpt K V)) : SetInv (New (K := K) (V := V) opts) := by
  unfold New
  have hc : ((opts.foldl applyOpt
      { n := 0, ttl := 0, getter := none, onEvict := none, cache := [] } :
      Cache K V)).cache = [] := foldl_applyOpt_cache opts _
  by_cases h : (opts.foldl applyOpt
      { n := 0, ttl := 0, getter := none, onEvict := none, cache := [] } :
      Cache K V).n ≤ 0
  · rw [if_pos h]
    refine ⟨by norm_num, ?_, ?_⟩
    · simp [Cache.Len, hc]
    · simp [keysNodup, Cache.keys, hc]
  · rw [if_neg h]
    refine ⟨by omega, ?_, ?_⟩
    · simp only [Cache.Len, hc, List.length_nil, Nat.cast_zero]
      omega
    · simp [keysNodup, Cache.keys, hc]

/-- Claim C1: for every cache created by `New` — any options, hence any
capacity, TTL, getter and eviction-callback configuration — and every
sequence of `Set` calls (at arbitrary clock instants, with eviction
callbacks free to fail), `Len() <= Size()` holds after each `Set`
returns. -/
theorem claim_C1 (opts : List (COpt K V)) (calls : List (K × V × Nat)) :
    ((runSets (New opts) calls).Len : Int) ≤ (runSets (New opts) calls).Size :=
  (runSets_SetInv calls _ (New_SetInv opts)).2.1

end lru

namespace lru

variable {K V : Type} [DecidableEq K] [Inhabited V]

/-- Claim C5: every eviction in the model goes through `Cache.evict` (the
expired path of `Get`, the expired sweep of `Set`, and the capacity path of
`Set` all call it), and `Cache.evict` removes the entry from the recency
list and the key index first — the resulting state is the erased state no
matter what the callback does — and only then reports the callback's error
or recovered panic, wrapped with the evicted entry's key; an error outcome
does not reinstate the entry. -/
theorem claim_C5 (c : Cache K V) (el : listValue K V)
    (hmem : el ∈ c.cache) (hnd : keysNodup c) :
    (c.evict el).1 = { c with cache := c.cache.eraseP (fun x => x.key == el.key) } ∧
    el.key ∉ ((c.evict el).1).keys ∧
    (∀ (f : V → CbOutcome K) (e' : GoErr K), c.onEvict = some f → f el.val = .err e' →
      (c.evict el).2 = some (.wrapEvictFor el.key e')) ∧
    (∀ (f : V → CbOutcome K) (r : String), c.onEvict = some f → f el.val = .panics r →
      (c.evict el).2 = some (.evictPanicked el.key r)) := by
  refine ⟨evict_fst c el, ?_, ?_, ?_⟩
  · rw [evict_fst]
    intro hk
    obtain ⟨x, hx, hxk⟩ := List.mem_map.mp hk
    exact keys_eraseP_ne el.key c.cache hnd x hx hxk
  · intro f e' hcb hfe
    simp [Cache.evict, hcb, hfe]
  · intro f r hcb hfe
    simp [Cache.evict, hcb, hfe]

/-- Claim C2 (amended): when `Get` finds the entry for `key` expired, it
evicts it (the entry is removed no matter what); when the post-eviction
callback fails (error or panic), `Get` propagates the wrapped error
immediately without retry and does **not** continue to the miss path; only
when the eviction succeeds does it continue to the miss path (getter, or
not-found). -/
theorem claim_C2_amended (c : Cache K V) (k : K) (now : Nat) (el : listValue K V)
    (f : V → CbOutcome K)
    (hf : c.cache.find? (fun x => x.key == k) = some el)
    (hexp1 : el.exp ≠ 0) (hexp2 : el.exp ≤ now)
    (hcb : c.onEvict = some f) :
    (∀ e', f el.val = .err e' →
      c.Get k now =
        ({ c with cache := c.cache.eraseP (fun x => x.key == k) }, default,
          some (.wrapEvictExpired (.wrapEvictFor k e')))) ∧
    (∀ r, f el.val = .panics r →
      c.Get k now =
        ({ c with cache := c.cache.eraseP (fun x => x.key == k) }, default,
          some (.wrapEvictExpired (.evictPanicked k r)))) ∧
    (f el.val = .ok →
      c.Get k now =
        ({ c with cache := c.cache.eraseP (fun x => x.key == k) }).populateByGetter k now) := by
  have hkey : el.key = k := by simpa using List.find?_some hf
  have hcond : ¬(el.exp = 0 ∨ now < el.exp) := not_or.mpr ⟨hexp1, Nat.not_lt.mpr hexp2⟩
  refine ⟨?_, ?_, ?_⟩
  · intro e' hfe
    simp [Cache.Get, hf, hcond, Cache.evict, hcb, hfe, hkey]
  · intro r hfe
    simp [Cache.Get, hf, hcond, Cache.evict, hcb, hfe, hkey]
  · intro hfe
    simp [Cache.Get, hf, hcond, Cache.evict, hcb, hfe, hkey]

end lru

namespace lru

variable {K V : Type} [DecidableEq K] [Inhabited V]

/-- Claim C7 (amended): with no getter configured, `Get` of an absent key
returns the zero value and an error wrapping `ErrNotFound`, leaving the
cache unchanged; `Get` of a key present only as an expired entry (whose
eviction reports no error) returns the same zero value and wrapped
not-found error, the only state change being that entry's eviction. -/
theorem claim_C7_amended (c : Cache K V) (k : K) (now : Nat)
    (hg : c.getter = none) :
    (c.cache.find? (fun x => x.key == k) = none →
      c.Get k now = (c, default, some (.wrapNotFound k .sentinelNotFound))) ∧
    (∀ el, c.cache.find? (fun x => x.key == k) = some el → el.exp ≠ 0 → el.exp ≤ now →
      (c.evict el).2 = none →
      c.Get k now =
        ({ c with cache := c.cache.eraseP (fun x => x.key == k) }, default,
          some (.wrapNotFound k .sentinelNotFound))) ∧
    errorsIs (GoErr.wrapNotFound k GoErr.sentinelNotFound) GoErr.sentinelNotFound = true := by
  refine ⟨?_, ?_, ?_⟩
  · intro hmiss
    simp [Cache.Get, hmiss, Cache.populateByGetter, hg]
  · intro el hf hexp1 hexp2 hev
    have hkey : el.key = k := by simpa using List.find?_some hf
    have hcond : ¬(el.exp = 0 ∨ now < el.exp) := not_or.mpr ⟨hexp1, Nat.not_lt.mpr hexp2⟩
    have hfst := evict_fst c el
    simp only [Cache.Get, hf]
    rw [if_neg hcond, hev]
    simp only [hfst, hkey]
    simp [Cache.populateByGetter, hg]
  · simp [errorsIs]

theorem sweep_all_zero (now : Nat) :
    ∀ (es : List (listValue K V)) (c : Cache K V),
      c.cache = es → c.onEvict = none → (∀ e ∈ es, ¬ now < e.exp) →
      Cache.sweep now c es = ({ c with cache := [] }, none) := by
  intro es
  induction es with
  | nil =>
    intro c hc _ _
    cases c with
    | mk n ttl g o cc =>
      simp only at hc
      subst hc
      rfl
  | cons el rest ih =>
    intro c hc ho hall
    simp only [Cache.sweep]
    rw [if_neg (hall el (List.mem_cons_self _ _))]
    have hev2 : (c.evict el).2 = none := evict_snd_none c el ho
    have hev1 : (c.evict el).1 = { c with cache := rest } := by
      rw [evict_fst, hc]
      congr 1
      exact List.eraseP_cons_of_pos (by simp)
    rw [hev2]
    simp only []
    rw [hev1]
    have := ih { c with cache := rest } rfl ho
      (fun e he => hall e (List.mem_cons_of_mem _ he))
    rw [this]

/-- Claim C8: with a negative TTL, `Set` stores entries with the zero
(unset) expiration; `Get` treats a zero-expiration entry as unexpired; and
with no eviction callback, the first `Set` that pushes the entry count past
the capacity runs the expired-entry sweep, which treats every
zero-expiration entry as expired and evicts all entries — that `Set`
returns nil and leaves `Len() = 0`. -/
theorem claim_C8 (c : Cache K V) (k : K) (v : V) (now : Nat) (httl : c.ttl < 0) :
    ((c.cache.find? (fun x => x.key == k)).isSome →
      ((c.Set k v now).1).cache.find? (fun x => x.key == k) = some ⟨k, v, 0⟩) ∧
    (c.cache.find? (fun x => x.key == k) = none →
        ((c.cache.length : Int) + 1) ≤ c.n →
      (c.Set k v now).1 = { c with cache := ⟨k, v, 0⟩ :: c.cache }) ∧
    (∀ el, c.cache.find? (fun x => x.key == k) = some el → el.exp = 0 →
      c.Get k now =
        ({ c with cache := el :: c.cache.eraseP (fun x => x.key == k) }, el.val, none)) ∧
    (c.onEvict = none → (∀ e ∈ c.cache, e.exp = 0) →
      c.cache.find? (fun x => x.key == k) = none →
      ((c.cache.length : Int) + 1) > c.n →
      c.Set k v now = ({ c with cache := [] }, none) ∧ ((c.Set k v now).1).Len = 0) := by
  have hexp0 : ¬ 0 < c.ttl := by omega
  refine ⟨?_, ?_, ?_, ?_⟩
  · intro hf
    simp only [Cache.Set, if_pos hf, if_neg hexp0]
    exact List.find?_cons_of_pos _ (by simp)
  · intro hmiss hcap
    have hmiss' : ¬ (c.cache.find? (fun x => x.key == k)).isSome = true := by
      simp [hmiss]
    simp only [Cache.Set, if_neg hmiss', if_neg hexp0]
    rw [if_pos (by simp only [List.length_cons]; push_cast; omega)]
  · intro el hf hz
    have hcond : el.exp = 0 ∨ now < el.exp := Or.inl hz
    simp [Cache.Get, hf, hcond]
  · intro ho hall hmiss hover
    have hmiss' : ¬ (c.cache.find? (fun x => x.key == k)).isSome = true := by
      simp [hmiss]
    have httl0 : ¬ ({ c with cache := ⟨k, v, 0⟩ :: c.cache } : Cache K V).ttl = 0 := by
      show ¬ c.ttl = 0
      omega
    have hsweep := sweep_all_zero now (⟨k, v, 0⟩ :: c.cache)
      { c with cache := ⟨k, v, 0⟩ :: c.cache } rfl ho
      (by
        intro e he
        rcases List.mem_cons.mp he with h | h
        · subst h; simp
        · rw [hall e h]; simp)
    have hset : c.Set k v now = ({ c with cache := [] }, none) := by
      simp only [Cache.Set, if_neg hmiss', if_neg hexp0]
      rw [if_neg (by simp only [List.length_cons]; push_cast; omega)]
      simp only [Cache.evictExpired, if_neg httl0]
      rw [hsweep]
      simp only []
      by_cases hfin : ((([] : List (listValue K V)).length : Int)) ≤ c.n
      · rw [if_pos hfin]
      · rw [if_neg hfin]
        rfl
    refine ⟨hset, ?_⟩
    rw [hset]
    rfl

end lru

namespace lru

variable {K V : Type} [DecidableEq K] [Inhabited V]

theorem substr_getterPanicked (ks : K → String) (k : K) (r : String) :
    substrOf (ks k) (errText ks (.wrapGetterFor k (.getterPanicked k r))) ∧
    substrOf r (errText ks (.wrapGetterFor k (.getterPanicked k r))) := by
  constructor
  · refine ⟨"get value by getter for key: ".data,
      (": " ++ ("exec getter for key: " ++ ks k ++ ": " ++ r)).data, ?_⟩
    simp [errText, String.data_append]
  · refine ⟨("get value by getter for key: " ++ ks k ++ ": " ++
      ("exec getter for key: " ++ ks k ++ ": ")).data, ([] : List Char), ?_⟩
    simp [errText, String.data_append]

theorem substr_evictPanickedExpired (ks : K → String) (k : K) (r : String) :
    substrOf (ks k) (errText ks (.wrapEvictExpired (.evictPanicked k r))) ∧
    substrOf r (errText ks (.wrapEvictExpired (.evictPanicked k r))) := by
  constructor
  · refine ⟨("evict expired value: " ++ "evict value for key: ").data,
      (": " ++ r).data, ?_⟩
    simp [errText, String.data_append]
  · refine ⟨("evict expired value: " ++ ("evict value for key: " ++ ks k ++ ": ")).data,
      ([] : List Char), ?_⟩
    simp [errText, String.data_append]

theorem substr_evictPanicked (ks : K → String) (k : K) (r : String) :
    substrOf (ks k) (errText ks (.evictPanicked k r)) ∧
    substrOf r (errText ks (.evictPanicked k r)) := by
  constructor
  · refine ⟨"evict value for key: ".data, (": " ++ r).data, ?_⟩
    simp [errText, String.data_append]
  · refine ⟨("evict value for key: " ++ ks k ++ ": ").data, ([] : List Char), ?_⟩
    simp [errText, String.data_append]

/-- Claim C6: a panic in a user-supplied getter or post-eviction callback
never escapes the cache API (the `recover()` boundaries in `execGetter` and
`evict`, embedded as the `panics` outcome handling, convert it on the
spot): the triggering `Get`/`Set` returns normally, with an error whose
text contains the affected key and the panic's description.  The three
panic sites are covered: a getter panic during `Get`, an eviction-callback
panic during `Get` of an expired entry, and an eviction-callback panic
during `Set`'s capacity eviction. -/
theorem claim_C6 (ks : K → String) :
    (∀ (c : Cache K V) (g : K → GetterOutcome K V) (k : K) (now : Nat) (r : String),
      c.getter = some g → g k = .panics r →
      c.cache.find? (fun x => x.key == k) = none →
      c.Get k now = (c, default, some (.wrapGetterFor k (.getterPanicked k r))) ∧
      substrOf (ks k) (errText ks (.wrapGetterFor k (.getterPanicked k r))) ∧
      substrOf r (errText ks (.wrapGetterFor k (.getterPanicked k r)))) ∧
    (∀ (c : Cache K V) (f : V → CbOutcome K) (k : K) (now : Nat) (el : listValue K V)
        (r : String),
      c.onEvict = some f → c.cache.find? (fun x => x.key == k) = some el →
      el.exp ≠ 0 → el.exp ≤ now → f el.val = .panics r →
      c.Get k now = ({ c with cache := c.cache.eraseP (fun x => x.key == k) }, default,
        some (.wrapEvictExpired (.evictPanicked k r))) ∧
      substrOf (ks k) (errText ks (.wrapEvictExpired (.evictPanicked k r))) ∧
      substrOf r (errText ks (.wrapEvictExpired (.evictPanicked k r)))) ∧
    (∀ (c : Cache K V) (f : V → CbOutcome K) (k : K) (v : V) (now : Nat)
        (back : listValue K V) (r : String),
      c.onEvict = some f → c.ttl = 0 →
      c.cache.find? (fun x => x.key == k) = none →
      ((c.cache.length : Int) + 1) > c.n →
      c.cache.getLast? = some back → f back.val = .panics r →
      (c.Set k v now).2 = some (.evictPanicked back.key r) ∧
      substrOf (ks back.key) (errText ks (.evictPanicked back.key r)) ∧
      substrOf r (errText ks (.evictPanicked back.key r))) := by
  refine ⟨?_, ?_, ?_⟩
  · intro c g k now r hg hgk hmiss
    refine ⟨?_, substr_getterPanicked ks k r⟩
    simp [Cache.Get, hmiss, Cache.populateByGetter, hg, hgk]
  · intro c f k now el r hcb hf hexp1 hexp2 hfe
    refine ⟨?_, substr_evictPanickedExpired ks k r⟩
    have hkey : el.key = k := by simpa using List.find?_some hf
    have hcond : ¬(el.exp = 0 ∨ now < el.exp) := not_or.mpr ⟨hexp1, Nat.not_lt.mpr hexp2⟩
    simp [Cache.Get, hf, hcond, Cache.evict, hcb, hfe, hkey]
  · intro c f k v now back r hcb httl hmiss hover hback hfb
    refine ⟨?_, substr_evictPanicked ks back.key r⟩
    have hmiss' : ¬ (c.cache.find? (fun x => x.key == k)).isSome = true := by
      simp [hmiss]
    have hexp0 : ¬ 0 < c.ttl := by omega
    have hne : c.cache ≠ [] := by
      intro h
      rw [h] at hback
      simp at hback
    simp only [Cache.Set, if_neg hmiss', if_neg hexp0]
    rw [if_neg (by simp only [List.length_cons]; push_cast; omega)]
    have httl0 : ({ c with cache := ⟨k, v, 0⟩ :: c.cache } : Cache K V).ttl = 0 := httl
    simp only [Cache.evictExpired, if_pos httl0]
    rw [if_neg (by simp only [List.length_cons]; push_cast; omega)]
    have hlast : ((⟨k, v, 0⟩ :: c.cache : List (listValue K V))).getLast? = some back := by
      rw [List.getLast?_cons, hback]
      rfl
    rw [hlast]
    simp [Cache.evict, hcb, hfb]

end lru

namespace lru

variable {K V : Type} [DecidableEq K] [Inhabited V]

theorem lastVal_append_self (ps : List (K × V)) (k : K) (v : V) :
    lastVal (ps ++ [(k, v)]) k = some v := by
  simp only [lastVal, List.reverse_append, List.reverse_singleton, List.singleton_append]
  rw [List.find?_cons_of_pos _ (by simp)]
  rfl

theorem lastVal_append_ne (ps : List (K × V)) (k k' : K) (v : V) (hne : k' ≠ k) :
    lastVal (ps ++ [(k, v)]) k' = lastVal ps k' := by
  simp only [lastVal, List.reverse_append, List.reverse_singleton, List.singleton_append]
  rw [List.find?_cons_of_neg _ (by simp [Ne.symm hne])]

theorem lastVal_eq_none_iff (ps : List (K × V)) (k : K) :
    lastVal ps k = none ↔ k ∉ ps.map Prod.fst := by
  unfold lastVal
  rw [Option.map_eq_none', List.find?_eq_none]
  constructor
  · intro h hk
    obtain ⟨q, hq, hqk⟩ := List.mem_map.mp hk
    exact h q (List.mem_reverse.mpr hq) (by simp [hqk])
  · intro h q hq hqk
    simp only [beq_iff_eq] at hqk
    exact h (List.mem_map.mpr ⟨q, List.mem_reverse.mp hq, hqk⟩)

theorem find?_eraseP_of_ne (k k' : K) (hne : k' ≠ k) :
    ∀ l : List (listValue K V),
      (l.eraseP (fun e => e.key == k)).find? (fun e => e.key == k') =
        l.find? (fun e => e.key == k') := by
  intro l
  induction l with
  | nil => simp
  | cons h t ih =>
    by_cases hk : h.key = k
    · rw [List.eraseP_cons_of_pos (by simp [hk])]
      rw [List.find?_cons_of_neg _ (by simp [hk, Ne.symm hne])]
    · rw [List.eraseP_cons_of_neg (by simp [hk])]
      by_cases hk' : h.key = k'
      · rw [List.find?_cons_of_pos _ (by simp [hk']),
          List.find?_cons_of_pos _ (by simp [hk'])]
      · rw [List.find?_cons_of_neg _ (by simp [hk']),
          List.find?_cons_of_neg _ (by simp [hk'])]
        exact ih

theorem Set_models (now : Nat) (c₀ : Cache K V) (ps : List (K × V)) (c : Cache K V)
    (k : K) (v : V) (hm : Models now c₀ ps c)
    (hcap : ((((ps ++ [(k, v)]).map Prod.fst).toFinset.card : Int)) ≤ c₀.n) :
    Models now c₀ (ps ++ [(k, v)]) ((c.Set k v now).1) := by
  obtain ⟨hn, httl, hget, hcb, hnd, hlen, hfind⟩ := hm
  have hexp : (if 0 < c.ttl then now + c.ttl.toNat else 0) = expOf c₀.ttl now := by
    rw [httl, expOf]
  have hcard : ((ps ++ [(k, v)]).map Prod.fst).toFinset =
      insert k (ps.map Prod.fst).toFinset := by
    rw [List.map_append, List.toFinset_append, Finset.insert_eq, Finset.union_comm]
    simp
  by_cases hf : (c.cache.find? (fun x => x.key == k)).isSome
  · -- key exists: update in place
    obtain ⟨el, hel⟩ := Option.isSome_iff_exists.mp hf
    have hmem_el : el ∈ c.cache := List.mem_of_find?_eq_some hel
    have hkmem : k ∈ ps.map Prod.fst := by
      by_contra hko
      have : lastVal ps k = none := (lastVal_eq_none_iff ps k).mpr hko
      rw [hfind k, this] at hel
      simp at hel
    simp only [Cache.Set, if_pos hf]
    refine ⟨hn, httl, hget, hcb, ?_, ?_, ?_⟩
    · simp only [keysNodup, Cache.keys, List.map_cons, List.nodup_cons]
      refine ⟨?_, ((List.eraseP_sublist _).map _).nodup hnd⟩
      intro hk
      obtain ⟨x, hx, hxk⟩ := List.mem_map.mp hk
      exact keys_eraseP_ne k c.cache hnd x hx hxk
    · have hpel := List.find?_some hel
      have he : (c.cache.eraseP (fun x => x.key == k)).length = c.cache.length - 1 :=
        List.length_eraseP_of_mem hmem_el hpel
      have hpos : 0 < c.cache.length := List.length_pos_of_mem hmem_el
      simp only [Cache.Len, List.length_cons, he, hcard]
      rw [Finset.insert_eq_self.mpr (List.mem_toFinset.mpr hkmem)]
      simp only [Cache.Len] at hlen
      omega
    · intro k'
      by_cases hkk : k' = k
      · subst hkk
        rw [List.find?_cons_of_pos _ (by simp), lastVal_append_self]
        simp [hexp]
      · rw [List.find?_cons_of_neg _ (by simp [Ne.symm hkk]),
          find?_eraseP_of_ne k k' hkk, hfind k', lastVal_append_ne ps k k' v hkk]
  · -- key absent: insert at front, within capacity
    have hfnone : c.cache.find? (fun x => x.key == k) = none := by
      rcases hq : c.cache.find? (fun x => x.key == k) with _ | q
      · exact hq
      · exact absurd (by rw [hq]; rfl) hf
    have hknot : k ∉ ps.map Prod.fst := by
      have := hfind k
      rw [hfnone] at this
      rcases hq : lastVal ps k with _ | q
      · exact (lastVal_eq_none_iff ps k).mp hq
      · rw [hq] at this; simp at this
    have hcard' : ((ps ++ [(k, v)]).map Prod.fst).toFinset.card =
        (ps.map Prod.fst).toFinset.card + 1 := by
      rw [hcard, Finset.card_insert_of_not_mem (fun hk => hknot (List.mem_toFinset.mp hk))]
    simp only [Cache.Set, if_neg hf]
    rw [if_pos ?hcap1]
    case hcap1 =>
      simp only [List.length_cons]
      have h1 : (c.cache.length : Int) = ((ps.map Prod.fst).toFinset.card : Int) := by
        simp only [Cache.Len] at hlen
        rw [hlen]
      have h2 : ((((ps ++ [(k, v)]).map Prod.fst).toFinset.card : Nat) : Int) ≤ c₀.n := hcap
      rw [hcard'] at h2
      push_cast at h2 ⊢
      rw [hn]
      omega
    refine ⟨hn, httl, hget, hcb, ?_, ?_, ?_⟩
    · simp only [keysNodup, Cache.keys, List.map_cons, List.nodup_cons]
      exact ⟨key_not_mem_of_find?_none hfnone, hnd⟩
    · simp only [Cache.Len, List.length_cons, hcard']
      simp only [Cache.Len] at hlen
      omega
    · intro k'
      by_cases hkk : k' = k
      · subst hkk
        rw [List.find?_cons_of_pos _ (by simp), lastVal_append_self]
        simp [hexp]
      · rw [List.find?_cons_of_neg _ (by simp [Ne.symm hkk]), hfind k',
          lastVal_append_ne ps k k' v hkk]

theorem New_cache_nil (opts : List (COpt K V)) : (New (K := K) (V := V) opts).cache = [] := by
  have h := foldl_applyOpt_cache (K := K) (V := V) opts
    { n := 0, ttl := 0, getter := none, onEvict := none, cache := [] }
  simp only [New]
  split
  · exact h
  · exact h

theorem New_models (opts : List (COpt K V)) (now : Nat) :
    Models now (New opts) [] (New (K := K) (V := V) opts) := by
  have hc := New_cache_nil (K := K) (V := V) opts
  refine ⟨rfl, rfl, rfl, rfl, ?_, ?_, ?_⟩
  · simp [keysNodup, Cache.keys, hc]
  · simp [Cache.Len, hc, lastVal]
  · intro k
    simp [hc, lastVal]

theorem runSets_models (now : Nat) (c₀ : Cache K V) :
    ∀ (rest ps : List (K × V)) (c : Cache K V),
      Models now c₀ ps c →
      ((((ps ++ rest).map Prod.fst).toFinset.card : Int)) ≤ c₀.n →
      Models now c₀ (ps ++ rest) (runSets c (rest.map fun q => (q.1, q.2, now))) := by
  intro rest
  induction rest with
  | nil =>
    intro ps c hm _
    simpa using hm
  | cons q rest' ih =>
    intro ps c hm hcap
    rcases q with ⟨qk, qv⟩
    have hsub : ((ps ++ [(qk, qv)]).map Prod.fst).toFinset ⊆
        ((ps ++ (qk, qv) :: rest').map Prod.fst).toFinset := by
      intro a ha
      rw [List.mem_toFinset] at ha ⊢
      obtain ⟨x, hx, hxa⟩ := List.mem_map.mp ha
      refine List.mem_map.mpr ⟨x, ?_, hxa⟩
      rcases List.mem_append.mp hx with h | h
      · exact List.mem_append.mpr (Or.inl h)
      · simp only [List.mem_singleton] at h
        exact List.mem_append.mpr (Or.inr (by simp [h]))
    have hcap' : ((((ps ++ [(qk, qv)]).map Prod.fst).toFinset.card : Int)) ≤ c₀.n := by
      calc ((((ps ++ [(qk, qv)]).map Prod.fst).toFinset.card : Int))
          ≤ ((((ps ++ (qk, qv) :: rest').map Prod.fst).toFinset.card : Int)) := by
            exact_mod_cast Finset.card_le_card hsub
        _ ≤ c₀.n := hcap
    have hm' := Set_models now c₀ ps c qk qv hm hcap'
    have hres := ih (ps ++ [(qk, qv)]) ((c.Set qk qv now).1) hm'
      (by simpa using hcap)
    simpa using hres

/-- Claim C4: for every sequence of `Set` calls that stays within capacity
(the number of distinct keys does not exceed the configured size), a
subsequent `Get` of any set key returns the most recently set value for
that key with no error; and a further `Set` of an already-present key
updates the stored value and expiration in place, returns nil, and leaves
`Len()` unchanged. -/
theorem claim_C4 :
    (∀ (opts : List (COpt K V)) (calls : List (K × V)) (now : Nat) (k : K) (v : V),
      (((calls.map Prod.fst).toFinset.card : Int)) ≤ (New (K := K) (V := V) opts).n →
      lastVal calls k = some v →
      ((runSets (New opts) (calls.map fun q => (q.1, q.2, now))).Get k now).2.1 = v ∧
      ((runSets (New opts) (calls.map fun q => (q.1, q.2, now))).Get k now).2.2 = none) ∧
    (∀ (c : Cache K V) (k : K) (v : V) (now : Nat) (el : listValue K V),
      c.cache.find? (fun x => x.key == k) = some el →
      (c.Set k v now).2 = none ∧
      ((c.Set k v now).1).Len = c.Len ∧
      ((c.Set k v now).1).cache.find? (fun x => x.key == k) =
        some ⟨k, v, expOf c.ttl now⟩) := by
  constructor
  · intro opts calls now k v hcap hlast
    have hm := runSets_models now (New opts) calls [] (New opts)
      (New_models opts now) (by simpa using hcap)
    simp only [List.nil_append] at hm
    obtain ⟨_, _, _, _, _, _, hfind⟩ := hm
    have hf := hfind k
    rw [hlast] at hf
    simp only [Option.map_some'] at hf
    have hcond : (⟨k, v, expOf (New (K := K) (V := V) opts).ttl now⟩ :
        listValue K V).exp = 0 ∨ now < (⟨k, v, expOf (New (K := K) (V := V) opts).ttl now⟩ :
        listValue K V).exp := by
      simp only [expOf]
      by_cases h : 0 < (New (K := K) (V := V) opts).ttl
      · rw [if_pos h]
        right
        omega
      · rw [if_neg h]
        left
        rfl
    constructor
    · simp [Cache.Get, hf, hcond]
    · simp [Cache.Get, hf, hcond]
  · intro c k v now el hel
    have hf : (c.cache.find? (fun x => x.key == k)).isSome = true := by
      rw [hel]; rfl
    have hmem : el ∈ c.cache := List.mem_of_find?_eq_some hel
    have hpel := List.find?_some hel
    have he : (c.cache.eraseP (fun x => x.key == k)).length = c.cache.length - 1 :=
      List.length_eraseP_of_mem hmem hpel
    have hpos : 0 < c.cache.length := List.length_pos_of_mem hmem
    refine ⟨?_, ?_, ?_⟩
    · simp [Cache.Set, hf]
    · simp only [Cache.Set, if_pos hf, Cache.Len, List.length_cons, he]
      omega
    · simp only [Cache.Set, if_pos hf]
      rw [List.find?_cons_of_pos _ (by simp)]
      simp [expOf]

end lru

namespace linked

variable {V : Type} [Inhabited V]

theorem length_wrNext (l : LList V) (i x : Nat) :
    (wrNext l i x).nodes.length = l.nodes.length := List.length_set _ _ _

theorem length_wrPrev (l : LList V) (i x : Nat) :
    (wrPrev l i x).nodes.length = l.nodes.length := List.length_set _ _ _

theorem rd_wrNext_self (l : LList V) (i x : Nat) (h : i < l.nodes.length) :
    rd (wrNext l i x) i = { rd l i with next := x } := by
  simp [rd, wrNext, List.getD_eq_getElem?_getD, List.getElem?_set_eq h]

theorem rd_wrNext_ne (l : LList V) (i x j : Nat) (h : j ≠ i) :
    rd (wrNext l i x) j = rd l j := by
  simp [rd, wrNext, List.getD_eq_getElem?_getD, List.getElem?_set_ne (Ne.symm h)]

theorem rd_wrPrev_self (l : LList V) (i x : Nat) (h : i < l.nodes.length) :
    rd (wrPrev l i x) i = { rd l i with prev := x } := by
  simp [rd, wrPrev, List.getD_eq_getElem?_getD, List.getElem?_set_eq h]

theorem rd_wrPrev_ne (l : LList V) (i x j : Nat) (h : j ≠ i) :
    rd (wrPrev l i x) j = rd l j := by
  simp [rd, wrPrev, List.getD_eq_getElem?_getD, List.getElem?_set_ne (Ne.symm h)]

theorem move_front_prev (l : LList V) (e : Nat) (hwf : WF l)
    (he : e < l.nodes.length) (hne : e ≠ 0) (hp : (rd l e).prev ≠ 0) :
    (rd (move l e 0) e).prev = 0 := by
  obtain ⟨hnil, hlink⟩ := hwf
  have h0 : 0 < l.nodes.length := List.length_pos.mpr hnil
  have hroot := hlink 0 h0
  have hfe : (rd l 0).next ≠ e := by
    intro hcontra
    rw [hcontra] at hroot
    exact hp hroot.2.2.1
  have hguard : ¬(e = 0 ∨ (rd l e).prev = 0) := by
    push_neg
    exact ⟨hne, hp⟩
  unfold move
  rw [if_neg hguard]
  dsimp only
  set L1 := wrNext l (rd l e).prev (rd l e).next with hL1
  set L2 := wrPrev L1 (rd L1 e).next (rd L1 e).prev with hL2
  set L3 := wrPrev L2 e 0 with hL3
  set L4 := wrNext L3 e (rd L3 0).next with hL4
  set L5 := wrNext L4 (rd L4 e).prev e with hL5
  have hlen1 : L1.nodes.length = l.nodes.length := by rw [hL1]; exact length_wrNext _ _ _
  have hrd1 : rd L1 e = rd l e := by
    rw [hL1]
    by_cases hpe : (rd l e).prev = e
    · rw [hpe, rd_wrNext_self l e _ he]
    · exact rd_wrNext_ne l _ _ _ (fun h => hpe h.symm)
  have hlen2 : L2.nodes.length = l.nodes.length := by
    rw [hL2, length_wrPrev, hlen1]
  have hrd2 : rd L2 e = rd l e := by
    rw [hL2, hrd1]
    by_cases hnxe : (rd l e).next = e
    · rw [hnxe, rd_wrPrev_self L1 e _ (hlen1 ▸ he), hrd1]
    · rw [rd_wrPrev_ne L1 _ _ _ (fun h => hnxe h.symm)]
      exact hrd1
  have hrdL1_0 : rd L1 0 = rd l 0 := by
    rw [hL1]
    exact rd_wrNext_ne l _ _ _ (fun h => hp h.symm)
  have hrd0_2 : (rd L2 0).next = (rd l 0).next := by
    rw [hL2, hrd1]
    by_cases hnx0 : (rd l e).next = 0
    · rw [hnx0, rd_wrPrev_self L1 0 _ (hlen1 ▸ h0), hrdL1_0]
    · rw [rd_wrPrev_ne L1 _ _ _ (fun h => hnx0 h.symm), hrdL1_0]
  have hlen3 : L3.nodes.length = l.nodes.length := by
    rw [hL3, length_wrPrev, hlen2]
  have hrd3 : rd L3 e = { rd l e with prev := 0 } := by
    rw [hL3, rd_wrPrev_self L2 e _ (hlen2 ▸ he), hrd2]
  have hrd3_0 : (rd L3 0).next = (rd l 0).next := by
    rw [hL3, rd_wrPrev_ne L2 _ _ _ (fun h => hne h.symm)]
    exact hrd0_2
  have hlen4 : L4.nodes.length = l.nodes.length := by
    rw [hL4, length_wrNext, hlen3]
  have hrd4 : rd L4 e = { rd l e with next := (rd l 0).next, prev := 0 } := by
    rw [hL4, rd_wrNext_self L3 e _ (hlen3 ▸ he), hrd3, hrd3_0]
  have hrd5 : rd L5 e = { rd l e with next := (rd l 0).next, prev := 0 } := by
    rw [hL5, hrd4]
    have : ({ rd l e with next := (rd l 0).next, prev := 0 } : Element V).prev = 0 := rfl
    rw [this]
    rw [rd_wrNext_ne L4 _ _ _ hne]
    exact hrd4
  rw [hrd5]
  have : ({ rd l e with next := (rd l 0).next, prev := 0 } : Element V).next =
      (rd l 0).next := rfl
  rw [this]
  rw [rd_wrPrev_ne L5 _ _ _ (fun h => hfe h.symm)]
  rw [hrd5]

/-- Claim C10: on a well-formed list, `MoveToFront` of the element already
at the front and `MoveToBack` of the element already at the back are exact
no-ops — the whole list state (hence its sequence of values, its length and
all links) is unchanged — and `MoveToFront` is idempotent: applying it
twice to the same element gives the same list as applying it once. -/
theorem claim_C10 (l : LList V) (e : Nat) (hwf : WF l)
    (he : e < l.nodes.length) (hne : e ≠ 0) :
    ((rd l 0).next = e → MoveToFront l e = l) ∧
    ((rd l 0).prev = e → MoveToBack l e = l) ∧
    MoveToFront (MoveToFront l e) e = MoveToFront l e := by
  obtain ⟨hnil, hlink⟩ := hwf
  have h0 : 0 < l.nodes.length := List.length_pos.mpr hnil
  refine ⟨?_, ?_, ?_⟩
  · intro hfront
    have hprev : (rd l e).prev = 0 := by
      have h := (hlink 0 h0).2.2.1
      rw [hfront] at h
      exact h
    unfold MoveToFront move
    rw [if_pos (Or.inr hprev)]
  · intro hback
    unfold MoveToBack move
    rw [if_pos (Or.inl hback.symm)]
  · by_cases hg : e = 0 ∨ (rd l e).prev = 0
    · have h1 : MoveToFront l e = l := by
        unfold MoveToFront move
        rw [if_pos hg]
      rw [h1]
      exact h1
    · push_neg at hg
      have hprev2 : (rd (MoveToFront l e) e).prev = 0 :=
        move_front_prev l e ⟨hnil, hlink⟩ he hg.1 hg.2
      show move (MoveToFront l e) e 0 = MoveToFront l e
      unfold move
      rw [if_pos (Or.inr hprev2)]

end linked

namespace lru

/-- Witness for claim C2 (amended) at a concrete cache: the expired entry
for key 1 with a failing callback makes `Get` return the wrapped eviction
error, the entry removed. -/
theorem claim_C2_witness :
    lruC2w.cache.find? (fun x => x.key == 1) = some ⟨1, "one", 5⟩ ∧
    (5 : Nat) ≠ 0 ∧ (5 : Nat) ≤ 10 ∧
    lruC2w.Get 1 10 =
      ({ lruC2w with cache := lruC2w.cache.eraseP (fun x => x.key == 1) },
        (default : String),
        some (.wrapEvictExpired (.wrapEvictFor 1 (.userMade "oops")))) := by
  refine ⟨by decide, by decide, by decide, ?_⟩
  exact (claim_C2_amended lruC2w 1 10 ⟨1, "one", 5⟩
    (fun _ => .err (.userMade "oops")) (by decide) (by decide) (by decide) rfl).1
    (.userMade "oops") rfl

/-- Witness for claim C4 at a concrete in-capacity sequence and a concrete
update-in-place `Set`. -/
theorem claim_C4_witness :
    ((((([(1, "a"), (2, "b"), (1, "c")] : List (Nat × String)).map
        Prod.fst).toFinset.card : Int)) ≤ (New (K := Nat) (V := String) [COpt.withSize 2]).n) ∧
    lastVal [(1, "a"), (2, "b"), (1, "c")] 1 = some "c" ∧
    (lruC4w.Get 1 0).2.1 = "c" ∧ (lruC4w.Get 1 0).2.2 = none ∧
    lruC4b.cache.find? (fun x => x.key == 1) = some ⟨1, "x", 0⟩ ∧
    (lruC4b.Set 1 "y" 3).2 = none ∧ ((lruC4b.Set 1 "y" 3).1).Len = lruC4b.Len ∧
    ((lruC4b.Set 1 "y" 3).1).cache.find? (fun x => x.key == 1) =
      some ⟨1, "y", expOf lruC4b.ttl 3⟩ := by
  have ha := (claim_C4 (K := Nat) (V := String)).1 [COpt.withSize 2]
    [(1, "a"), (2, "b"), (1, "c")] 0 1 "c" (by decide) (by decide)
  have hb := (claim_C4 (K := Nat) (V := String)).2 lruC4b 1 "y" 3 ⟨1, "x", 0⟩ (by decide)
  exact ⟨by decide, by decide, ha.1, ha.2, by decide, hb.1, hb.2.1, hb.2.2⟩

/-- Witness for claim C5 at a concrete cache with a failing callback. -/
theorem claim_C5_witness :
    (⟨2, "y", 0⟩ : listValue Nat String) ∈ lruC5w.cache ∧ lruC5w.keys.Nodup ∧
    (lruC5w.evict ⟨2, "y", 0⟩).1 =
      { lruC5w with cache := lruC5w.cache.eraseP (fun x => x.key == 2) } ∧
    2 ∉ ((lruC5w.evict ⟨2, "y", 0⟩).1).keys ∧
    (lruC5w.evict ⟨2, "y", 0⟩).2 = some (.wrapEvictFor 2 (.userMade "cbfail")) := by
  have h := claim_C5 lruC5w ⟨2, "y", 0⟩ (by decide)
    (by unfold keysNodup; decide)
  exact ⟨by decide, by decide, h.1, h.2.1,
    h.2.2.1 (fun _ => .err (.userMade "cbfail")) (.userMade "cbfail") rfl rfl⟩

/-- Witness for claim C6 at concrete caches for all three panic sites. -/
theorem claim_C6_witness :
    lruC6g.cache.find? (fun x => x.key == 5) = none ∧
    lruC6g.Get 5 0 = (lruC6g, (default : String),
      some (.wrapGetterFor 5 (.getterPanicked 5 "boom"))) ∧
    substrOf (toString 5)
      (errText toString (GoErr.wrapGetterFor 5 (GoErr.getterPanicked 5 "boom"))) ∧
    substrOf "boom"
      (errText toString (GoErr.wrapGetterFor 5 (GoErr.getterPanicked 5 "boom"))) ∧
    (lruC6e.Get 7 10).2.2 = some (.wrapEvictExpired (.evictPanicked 7 "pow")) ∧
    substrOf (toString 7)
      (errText toString (GoErr.wrapEvictExpired (GoErr.evictPanicked 7 "pow"))) ∧
    substrOf "pow"
      (errText toString (GoErr.wrapEvictExpired (GoErr.evictPanicked 7 "pow"))) ∧
    (lruC6s.Set 2 "new" 0).2 = some (.evictPanicked 1 "zap") ∧
    substrOf (toString 1) (errText toString (GoErr.evictPanicked 1 "zap")) ∧
    substrOf "zap" (errText toString (GoErr.evictPanicked 1 "zap")) := by
  obtain ⟨p1, p2, p3⟩ := claim_C6 (K := Nat) (V := String) toString
  have h1 := p1 lruC6g (fun _ => .panics "boom") 5 0 "boom" rfl rfl (by decide)
  have h2 := p2 lruC6e (fun _ => .panics "pow") 7 10 ⟨7, "v", 3⟩ "pow" rfl (by decide)
    (by decide) (by decide) rfl
  have h3 := p3 lruC6s (fun _ => .panics "zap") 2 "new" 0 ⟨1, "old", 0⟩ "zap" rfl rfl
    (by decide) (by decide) (by decide) rfl
  refine ⟨by decide, h1.1, h1.2.1, h1.2.2, ?_, h2.2.1, h2.2.2, h3.1, h3.2.1, h3.2.2⟩
  rw [h2.1]

/-- Witness for claim C7 (amended) at a concrete cache: both the absent-key
case and the just-evicted expired-entry case. -/
theorem claim_C7_witness :
    lruC7cex.getter = none ∧
    lruC7cex.cache.find? (fun x => x.key == 2) = none ∧
    lruC7cex.Get 2 10 = (lruC7cex, (default : String),
      some (.wrapNotFound 2 .sentinelNotFound)) ∧
    lruC7cex.cache.find? (fun x => x.key == 1) = some ⟨1, "one", 5⟩ ∧
    (lruC7cex.evict ⟨1, "one", 5⟩).2 = none ∧
    lruC7cex.Get 1 10 =
      ({ lruC7cex with cache := lruC7cex.cache.eraseP (fun x => x.key == 1) },
        (default : String), some (.wrapNotFound 1 .sentinelNotFound)) ∧
    errorsIs (GoErr.wrapNotFound 2 GoErr.sentinelNotFound) GoErr.sentinelNotFound = true := by
  have h2 := claim_C7_amended lruC7cex 2 10 rfl
  have h1 := claim_C7_amended lruC7cex 1 10 rfl
  exact ⟨rfl, by decide, h2.1 (by decide), by decide, by decide,
    h1.2.1 ⟨1, "one", 5⟩ (by decide) (by decide) (by decide) (by decide), h2.2.2⟩

/-- Witness for claim C8 at a concrete negative-TTL cache. -/
theorem claim_C8_witness :
    lruC8c.ttl < 0 ∧ lruC8c.onEvict = none ∧
    lruC8c.cache = [⟨2, "b", 0⟩, ⟨1, "a", 0⟩] ∧
    lruC8c.cache.find? (fun x => x.key == 3) = none ∧
    ((lruC8c.cache.length : Int) + 1) > lruC8c.n ∧
    lruC8c.Set 3 "c" 7 = ({ lruC8c with cache := [] }, none) ∧
    ((lruC8c.Set 3 "c" 7).1).Len = 0 ∧
    (lruC8b.Get 1 100).2.2 = none := by
  have h := (claim_C8 lruC8c 3 "c" 7 (by decide)).2.2.2 rfl
    (by decide) (by decide) (by decide)
  have hg := (claim_C8 lruC8b 1 "x" 100 (by decide)).2.2.1 ⟨1, "a", 0⟩
    (by decide) rfl
  refine ⟨by decide, rfl, by decide, by decide, by decide, h.1, h.2, ?_⟩
  rw [hg]

end lru

namespace linked

/-- Witness for claim C10 at the concrete three-node list `wlist`. -/
theorem claim_C10_witness :
    WF wlist ∧ 1 < wlist.nodes.length ∧ (1 : Nat) ≠ 0 ∧
    (rd wlist 0).next = 1 ∧ MoveToFront wlist 1 = wlist ∧
    (rd wlist 0).prev = 2 ∧ MoveToBack wlist 2 = wlist ∧
    MoveToFront (MoveToFront wlist 1) 1 = MoveToFront wlist 1 ∧
    MoveToFront (MoveToFront wlist 2) 2 = MoveToFront wlist 2 := by
  have hwf : WF wlist := by unfold WF; decide
  have h1 := claim_C10 wlist 1 hwf (by decide) (by decide)
  have h2 := claim_C10 wlist 2 hwf (by decide) (by decide)
  exact ⟨hwf, by decide, by decide, by decide, h1.1 (by decide), by decide,
    h2.2.1 (by decide), h1.2.2, h2.2.2⟩

end linked
